import Mathlib

/-!
# Polymarket P&L Substreams: the block consumer of `examples/go/stream-arbitrage.go`

A shallow embedding of the Go program `stream-arbitrage.go` and the properties of its
block processing (`processBlock`, `formatUserPnL`, `formatArbitrage`) and of the
consumption loop of `startStreaming`.

Modelling decisions.

* An `interface{}` value is a `Value`: the nil interface, a `bool`, an `int`, a `string`,
  a `[]interface{}`, a `map[string]interface{}`, or a value of any other dynamic type
  (`float64`, a struct, ...), which the program can only print and which is therefore given
  by its `%v` rendering.
* A `map[string]interface{}` is an association list; indexing returns the first binding of
  the key and the nil interface when the key is absent, as Go's `m[k]` does.
* A Go `string` is a Lean `String` (text that is valid UTF-8); `len` and slicing work on its
  UTF-8 bytes (`goBytes`), as they do in Go.
* Go's `int` is the 64-bit two's complement integer: `m.totalOpportunities++` wraps
  (`wrapInt`).
* Standard output is the ordered trace of the `fmt.Printf` / `fmt.Println` calls, each with
  its format string and operands (`Out`). Wall-clock readings are operands that are named in
  the trace but not computed (`Arg.now`, `Arg.since`).
* A run-time panic is an `Except.error`; what the block had printed before the panic is not
  kept.
* The locals of `formatUserPnL` that are read from the record and never used (`totalTrades`,
  `totalVolume`, `totalPnl`, `riskScore`) are left out: reading a map has no effect.
* The concurrent part of `startStreaming` (the stream producer, the signal handler goroutine
  and the `select` loop) is a labelled transition system (`step`): the scheduler's and the
  environment's choices are the labels (`Action`), and a run is a list of labels (`run`).
-/

namespace StreamArbitrage

/-! ## Untyped values -/

/-- A Go `interface{}` value, by dynamic type. -/
inductive Value where
  /-- The nil interface (also the result of indexing a map at an absent key). -/
  | nil
  /-- A Go `bool`. -/
  | bool (b : Bool)
  /-- A Go `int`. -/
  | int (n : Int)
  /-- A Go `string`. -/
  | str (s : String)
  /-- A Go `[]interface{}`. -/
  | list (xs : List Value)
  /-- A Go `map[string]interface{}`, as an association list (first binding wins). -/
  | map (kvs : List (String × Value))
  /-- A value of any other dynamic type, given by its `%v` rendering. -/
  | other (text : String)

/-- A Go `map[string]interface{}`. -/
abbrev Record := List (String × Value)

/-- Go's `r[key]` on a `map[string]interface{}`: the nil interface when the key is absent. -/
def index (r : Record) (key : String) : Value :=
  match r.lookup key with
  | some v => v
  | none => Value.nil

/-- The type assertion `v.([]interface{})` in its two-result form. -/
def asList : Value → Option (List Value)
  | Value.list xs => some xs
  | _ => none

/-- The type assertion `v.(map[string]interface{})` in its two-result form. -/
def asMap : Value → Option Record
  | Value.map kvs => some kvs
  | _ => none

/-- Go's `v != lit` for an interface value `v` and a string constant `lit`: the two are equal
only when the dynamic type of `v` is `string` and the strings are the same. -/
def neString (v : Value) (lit : String) : Bool :=
  match v with
  | Value.str s => s != lit
  | _ => true

/-! ## Strings as bytes, and `%v` -/

/-- The UTF-8 encoding of one character. -/
def utf8Char (c : Char) : List Nat :=
  let v := c.toNat
  if v < 128 then [v]
  else if v < 2048 then [192 + v / 64, 128 + v % 64]
  else if v < 65536 then [224 + v / 4096, 128 + v / 64 % 64, 128 + v % 64]
  else [240 + v / 262144, 128 + v / 4096 % 64, 128 + v / 64 % 64, 128 + v % 64]

/-- The bytes of a Go string. -/
def goBytes (s : String) : List Nat :=
  s.data.flatMap utf8Char

/-- Insertion of a rendered map entry into a list sorted by key. -/
def insertEntry (e : String × String) : List (String × String) → List (String × String)
  | [] => [e]
  | x :: xs => if e.1 < x.1 then e :: x :: xs else x :: insertEntry e xs

/-- Rendered map entries sorted by key, as `fmt` prints a map. -/
def sortEntries : List (String × String) → List (String × String)
  | [] => []
  | e :: es => insertEntry e (sortEntries es)

/-- The entries of an association list that `index` can reach: the first binding of each key. -/
def dedupKeys : List (String × String) → List (String × String)
  | [] => []
  | e :: es => e :: (dedupKeys es).filter (fun x => x.1 != e.1)

mutual
/-- The text of `fmt.Sprintf("%v", v)`. -/
def sprintV : Value → String
  | Value.nil => "<nil>"
  | Value.bool b => if b then "true" else "false"
  | Value.int n => toString n
  | Value.str s => s
  | Value.list xs => "[" ++ " ".intercalate (sprintList xs) ++ "]"
  | Value.map kvs =>
    "map[" ++ " ".intercalate ((sortEntries (dedupKeys (sprintFields kvs))).map
      (fun e => e.1 ++ ":" ++ e.2)) ++ "]"
  | Value.other text => text
termination_by structural v => v
/-- The renderings of the elements of a slice. -/
def sprintList : List Value → List String
  | [] => []
  | v :: vs => sprintV v :: sprintList vs
termination_by structural vs => vs
/-- The keys and rendered values of a map. -/
def sprintFields : List (String × Value) → List (String × String)
  | [] => []
  | (k, v) :: rest => (k, sprintV v) :: sprintFields rest
termination_by structural kvs => kvs
end

/-- A run-time panic. -/
inductive Panic where
  /-- The panic `slice bounds out of range [:high] with length length`. -/
  | sliceBounds (high : Nat) (length : Nat)
  deriving DecidableEq, Repr

/-- Go's `s[:high]` on a string: the first `high` bytes, a panic when the string is shorter. -/
def sliceTo (s : String) (high : Nat) : Except Panic (List Nat) :=
  if high ≤ (goBytes s).length then Except.ok ((goBytes s).take high)
  else Except.error (Panic.sliceBounds high (goBytes s).length)

/-- Go's `string(make([]byte, n))`: `n` zero bytes. -/
def zeroBytes (n : Nat) : String :=
  String.mk (List.replicate n (Char.ofNat 0))

/-! ## Machine integers -/

/-- The smallest Go `int`, `-2^63`. -/
def minInt : Int := -9223372036854775808

/-- The largest Go `int`, `2^63 - 1`. -/
def maxInt : Int := 9223372036854775807

/-- The value of an integer expression as a Go `int`: two's complement wrap-around at 64 bits,
`(x + 2^63) % 2^64 - 2^63`. -/
def wrapInt (x : Int) : Int :=
  (x + 9223372036854775808) % 18446744073709551616 - 9223372036854775808

/-- The predicate that an integer is a value of Go's `int`. -/
def IsInt (x : Int) : Prop := minInt ≤ x ∧ x ≤ maxInt

instance (x : Int) : Decidable (IsInt x) := by
  unfold IsInt
  exact inferInstance

/-! ## Standard output -/

/-- An operand of a `fmt.Printf` call. -/
inductive Arg where
  /-- An `interface{}` operand. -/
  | val (v : Value)
  /-- An `int` operand. -/
  | num (n : Int)
  /-- A `string` operand given by its bytes. -/
  | bytes (b : List Nat)
  /-- A `string` operand. -/
  | text (s : String)
  /-- The current wall-clock time, formatted. -/
  | now
  /-- The seconds elapsed since the instant `start`. -/
  | since (start : Nat)

/-- One call that writes to standard output. -/
inductive Out where
  /-- The call `fmt.Printf(format, args...)`. -/
  | printf (format : String) (args : List Arg)
  /-- The call `fmt.Println(line)`. -/
  | println (line : String)

/-! ## The monitor -/

/-- The constant `PACKAGE_NAME`. -/
def PACKAGE_NAME : String := "polymarket-pnl@v0.3.1"

/-- The constant `MODULE_NAME`. -/
def MODULE_NAME : String := "map_enhanced_pnl_with_neg_risk"

/-- The constant `START_BLOCK`. -/
def START_BLOCK : Int := 60000000

/-- The struct `ArbitrageMonitor`. -/
structure ArbitrageMonitor where
  /-- The field `totalOpportunities int`. -/
  totalOpportunities : Int
  /-- The field `totalUsers int`. -/
  totalUsers : Int
  /-- The field `startTime time.Time`, an instant of the wall clock. -/
  startTime : Nat

/-- The constructor `NewArbitrageMonitor`; `now` is the reading of `time.Now()`. -/
def NewArbitrageMonitor (now : Nat) : ArbitrageMonitor :=
  { totalOpportunities := 0, totalUsers := 0, startTime := now }

/-- The method `log`. -/
def log (message : String) : List Out :=
  [Out.printf "[%s] %s\n" [Arg.now, Arg.text message]]

/-- The method `formatArbitrage`. -/
def formatArbitrage (arbitrage : Record) : List Out :=
  let marketId := index arbitrage "marketId"
  let totalCost := index arbitrage "totalNoCost"
  let guaranteedPayout := index arbitrage "guaranteedPayout"
  let profit := index arbitrage "profit"
  let profitPercentage := index arbitrage "profitPercentage"
  let noOutcomes := index arbitrage "noOutcomes"
  let blockNumber := index arbitrage "blockNumber"
  [ Out.printf "  💰 Arbitrage Opportunity:\n" [],
    Out.printf "     Market: %v\n" [Arg.val marketId],
    Out.printf "     Cost: $%v → Payout: $%v\n" [Arg.val totalCost, Arg.val guaranteedPayout],
    Out.printf "     Profit: $%v (%v)\n" [Arg.val profit, Arg.val profitPercentage],
    Out.printf "     NO Outcomes: %v\n" [Arg.val noOutcomes],
    Out.printf "     Block: %v\n" [Arg.val blockNumber] ]

/-- The format string of the profit line of `formatUserPnL`. -/
def profitFormat : String := "  🎯 User %v... - Arbitrage Profit: $%v\n"

/-- The method `formatUserPnL`: the profit line, or a panic when the rendered address is
shorter than the eight bytes the slice `[:8]` takes. -/
def formatUserPnL (user : Record) : Except Panic (List Out) :=
  let address := index user "userAddress"
  let arbitrageProfit := index user "totalArbitrageProfit"
  if neString arbitrageProfit "0" then
    match sliceTo (sprintV address) 8 with
    | Except.ok head => Except.ok [Out.printf profitFormat [Arg.bytes head, Arg.val arbitrageProfit]]
    | Except.error e => Except.error e
  else Except.ok []

/-- The body of `for i, arbitrage := range arbitrageOpportunities` in `processBlock`, from
index `i` on. -/
def opportunitiesLoop (m : ArbitrageMonitor) (out : List Out) (i : Nat) :
    List Value → ArbitrageMonitor × List Out
  | [] => (m, out)
  | arbitrage :: rest =>
    match asMap arbitrage with
    | some arbMap =>
      opportunitiesLoop
        { m with totalOpportunities := wrapInt (m.totalOpportunities + 1) }
        (out ++ [Out.printf "  💰 Opportunity #%d:\n" [Arg.num (Int.ofNat i + 1)]]
          ++ formatArbitrage arbMap)
        (i + 1) rest
    | none => opportunitiesLoop m out (i + 1) rest

/-- The body of `for _, user := range userPnls` in `processBlock`. -/
def usersLoop (m : ArbitrageMonitor) (out : List Out) :
    List Value → Except Panic (ArbitrageMonitor × List Out)
  | [] => Except.ok (m, out)
  | user :: rest =>
    match asMap user with
    | some userMap =>
      match formatUserPnL userMap with
      | Except.ok lines =>
        usersLoop { m with totalUsers := wrapInt (m.totalUsers + 1) } (out ++ lines) rest
      | Except.error e => Except.error e
    | none => usersLoop m out rest

/-- The format string of the global-stats line of `processBlock`. -/
def globalFormat : String := "📊 Global Stats: %v users, %v trades\n"

/-- The part `// Process arbitrage opportunities` of `processBlock`. -/
def processOpportunities (m : ArbitrageMonitor) (out : List Out) (data : Record) :
    ArbitrageMonitor × List Out :=
  match asList (index data "arbitrageOpportunities") with
  | some arbitrageOpportunities =>
    if arbitrageOpportunities.length > 0 then
      opportunitiesLoop m
        (out ++ [Out.printf "🎯 Found %d arbitrage opportunities!\n"
          [Arg.num (Int.ofNat arbitrageOpportunities.length)]])
        0 arbitrageOpportunities
    else (m, out)
  | none => (m, out)

/-- The part `// Process user P&L data` of `processBlock`. -/
def processUsers (m : ArbitrageMonitor) (out : List Out) (data : Record) :
    Except Panic (ArbitrageMonitor × List Out) :=
  match asList (index data "userPnls") with
  | some userPnls =>
    if userPnls.length > 0 then
      usersLoop m
        (out ++ [Out.printf "👥 Processing %d users\n" [Arg.num (Int.ofNat userPnls.length)]])
        userPnls
    else Except.ok (m, out)
  | none => Except.ok (m, out)

/-- The part `// Process global P&L` of `processBlock`. -/
def processGlobal (out : List Out) (data : Record) : List Out :=
  match asList (index data "globalPnls") with
  | some (first :: _) =>
    match asMap first with
    | some glob =>
      let activeUsers := index glob "activeUsers"
      let totalTrades := index glob "totalTrades"
      out ++ [Out.printf globalFormat [Arg.val activeUsers, Arg.val totalTrades]]
    | none => out
  | _ => out

/-- The method `processBlock`: the monitor after the block and the output of the block, or
the panic that ends the process. -/
def processBlock (m : ArbitrageMonitor) (data : Record) :
    Except Panic (ArbitrageMonitor × List Out) :=
  let blockNumber := index data "blockNumber"
  let timestamp := index data "blockTimestamp"
  let out := [ Out.printf "\n📦 Block #%v\n" [Arg.val blockNumber],
               Out.printf "⏰ Time: %v\n" [Arg.val timestamp] ]
  let afterOpportunities := processOpportunities m out data
  match processUsers afterOpportunities.1 afterOpportunities.2 data with
  | Except.ok afterUsers =>
    Except.ok (afterUsers.1,
      processGlobal afterUsers.2 data ++ [Out.println ("─" ++ zeroBytes 80 ++ "─")])
  | Except.error e => Except.error e

/-- The method `printSummary`. -/
def printSummary (m : ArbitrageMonitor) : List Out :=
  [ Out.printf "\n📈 STREAMING SUMMARY\n" [],
    Out.printf ("─" ++ zeroBytes 50 ++ "─\n") [],
    Out.printf "⏱️  Duration: %.2f seconds\n" [Arg.since m.startTime],
    Out.printf "🎯 Arbitrage Opportunities: %d\n" [Arg.num m.totalOpportunities],
    Out.printf "👥 Total Users Processed: %d\n" [Arg.num m.totalUsers],
    Out.printf "📦 Package: %s\n" [Arg.text PACKAGE_NAME],
    Out.printf ("─" ++ zeroBytes 50 ++ "─\n") [] ]

/-! ## The consumption loop of `startStreaming` -/

/-- Where the `for { select { ... } }` loop of `startStreaming` stands. -/
inductive Phase where
  /-- The loop is waiting in `select`. -/
  | streaming
  /-- The loop has printed the summary and returned. -/
  | terminated
  /-- A panic of `processBlock` has ended the process. -/
  | crashed
  deriving DecidableEq, Repr

/-- The state of a run of `startStreaming`. -/
structure Loop where
  /-- The monitor `m`. -/
  monitor : ArbitrageMonitor
  /-- Standard output so far. -/
  out : List Out
  /-- The block events that are available to be received from `stream`, oldest first. -/
  pending : List Record
  /-- Whether the producer has closed `stream`. -/
  closed : Bool
  /-- The cancellation latch: whether `ctx.Done()` is closed. -/
  cancelled : Bool
  /-- The position of the loop. -/
  phase : Phase
  /-- The number of completed calls of `processBlock`. -/
  processed : Nat
  /-- The number of calls of `printSummary`. -/
  summaries : Nat

/-- The events of a run: what the environment does and which ready case `select` takes. -/
inductive Action where
  /-- The upstream feed makes one more block event available on `stream`. -/
  | send (data : Record)
  /-- The upstream feed closes `stream`. -/
  | close
  /-- An interrupt arrives; the handler goroutine logs and calls `cancel()`. -/
  | signal
  /-- The loop takes `case data, ok := <-stream`. -/
  | recv
  /-- The loop takes `case <-ctx.Done()`. -/
  | done

/-- The state in which `startStreaming` enters its loop: the banner is printed, the context,
the signal handler and the stream are set up. -/
def startStreaming (m : ArbitrageMonitor) : Loop :=
  { monitor := m
    out := log "🚀 Starting Polymarket P&L Arbitrage Monitor..." ++
      [ Out.printf "📦 Package: %s\n" [Arg.text PACKAGE_NAME],
        Out.printf "📊 Module: %s\n" [Arg.text MODULE_NAME],
        Out.printf "🔢 Start Block: %d\n" [Arg.num START_BLOCK],
        Out.println ("─" ++ zeroBytes 80 ++ "─") ]
    pending := []
    closed := false
    cancelled := false
    phase := Phase.streaming
    processed := 0
    summaries := 0 }

/-- The loop logs `message`, calls `printSummary` and returns; the deferred `cancel()` runs. -/
def finish (s : Loop) (message : String) : Loop :=
  { s with
    out := s.out ++ log message ++ printSummary s.monitor
    cancelled := true
    phase := Phase.terminated
    summaries := s.summaries + 1 }

/-- One event of a run; `none` when the event cannot happen in the state (a receive with
nothing to receive from an open stream blocks, `ctx.Done()` is not ready before `cancel()`,
the loop takes no case once it has returned, a closed stream gets no more events). -/
def step (s : Loop) : Action → Option Loop
  | Action.send data =>
    if s.closed then none else some { s with pending := s.pending ++ [data] }
  | Action.close =>
    if s.closed then none else some { s with closed := true }
  | Action.signal =>
    if s.cancelled then some s
    else some { s with out := s.out ++ log "👋 Shutting down gracefully...", cancelled := true }
  | Action.recv =>
    match s.phase with
    | Phase.streaming =>
      match s.pending with
      | data :: rest =>
        match processBlock s.monitor data with
        | Except.ok r =>
          some { s with monitor := r.1, out := s.out ++ r.2, pending := rest,
                        processed := s.processed + 1 }
        | Except.error _ =>
          some { s with pending := rest, cancelled := true, phase := Phase.crashed }
      | [] => if s.closed then some (finish s "✅ Stream ended") else none
    | _ => none
  | Action.done =>
    match s.phase with
    | Phase.streaming =>
      if s.cancelled then some (finish s "👋 Shutting down gracefully...") else none
    | _ => none

/-- A run: the events of the list, in order; `none` when one of them cannot happen. -/
def run (s : Loop) : List Action → Option Loop
  | [] => some s
  | a :: rest =>
    match step s a with
    | some s' => run s' rest
    | none => none

/-! ## Notions the properties are stated with -/

/-- The list under `"arbitrageOpportunities"`, empty when the field is absent or not a list. -/
def opportunities (data : Record) : List Value :=
  (asList (index data "arbitrageOpportunities")).getD []

/-- The list under `"userPnls"`, empty when the field is absent or not a list. -/
def userPnls (data : Record) : List Value :=
  (asList (index data "userPnls")).getD []

/-- The elements of a list that are composite records. -/
def records (xs : List Value) : List Record :=
  xs.filterMap asMap

/-- Whether every element of a list is a composite record. -/
def allRecords (xs : List Value) : Bool :=
  xs.all (fun x => (asMap x).isSome)

/-- Whether `formatUserPnL` slices out of range on a user record: the profit is not the
string `"0"` and the rendered address has fewer than eight bytes. -/
def shortAddress (user : Record) : Bool :=
  neString (index user "totalArbitrageProfit") "0" &&
    decide ((goBytes (sprintV (index user "userAddress"))).length < 8)

/-- The profit line of a user record whose rendered address has at least eight bytes. -/
def profitLine (user : Record) : Out :=
  Out.printf profitFormat
    [Arg.bytes ((goBytes (sprintV (index user "userAddress"))).take 8),
     Arg.val (index user "totalArbitrageProfit")]

/-- The profit lines of the user records of a list: one for each record whose profit is not
the string `"0"`, in order. -/
def profitLines (xs : List Value) : List Out :=
  ((records xs).filter (fun u => neString (index u "totalArbitrageProfit") "0")).map profitLine

/-- Whether an output call is a profit line. -/
def isProfitLine : Out → Bool
  | Out.printf format _ => format == profitFormat
  | Out.println _ => false

/-- Whether an output call is a global-stats line. -/
def isGlobalLine : Out → Bool
  | Out.printf format _ => format == globalFormat
  | Out.println _ => false

/-- The operator `++` on a Go `int`, applied `k` times. -/
def incrN (k : Nat) (x : Int) : Int :=
  (fun y => wrapInt (y + 1))^[k] x

/-- The blocks of a list fed to `processBlock` in order, as the consumption loop does: the
final monitor and the whole output, or the first panic. -/
def processBlocks (m : ArbitrageMonitor) (out : List Out) :
    List Record → Except Panic (ArbitrageMonitor × List Out)
  | [] => Except.ok (m, out)
  | data :: rest =>
    match processBlock m data with
    | Except.ok r => processBlocks r.1 (out ++ r.2) rest
    | Except.error e => Except.error e

/-- The output of the loop over the opportunities, from index `i` on: for each composite
record its numbered heading and the lines of `formatArbitrage`. -/
def opportunityLines (i : Nat) : List Value → List Out
  | [] => []
  | x :: rest =>
    match asMap x with
    | some arbMap =>
      Out.printf "  💰 Opportunity #%d:\n" [Arg.num (Int.ofNat i + 1)] ::
        (formatArbitrage arbMap ++ opportunityLines (i + 1) rest)
    | none => opportunityLines (i + 1) rest

/-- The line that announces the number of opportunities of a block. -/
def foundLine (n : Nat) : Out :=
  Out.printf "🎯 Found %d arbitrage opportunities!\n" [Arg.num (Int.ofNat n)]

/-- The line that announces the number of users of a block. -/
def processingLine (n : Nat) : Out :=
  Out.printf "👥 Processing %d users\n" [Arg.num (Int.ofNat n)]

/-- The global-stats line of a composite record. -/
def globalLine (glob : Record) : Out :=
  Out.printf globalFormat [Arg.val (index glob "activeUsers"), Arg.val (index glob "totalTrades")]

/-- The list under `"globalPnls"`, empty when the field is absent or not a list. -/
def globalPnls (data : Record) : List Value :=
  (asList (index data "globalPnls")).getD []

/-- The global-stats lines of a block: one, from the first element of the list under
`"globalPnls"`, when that element is a composite record. -/
def globalLines (data : Record) : List Out :=
  match globalPnls data with
  | first :: _ =>
    match asMap first with
    | some glob => [globalLine glob]
    | none => []
  | [] => []

/-- The output of a block on which `processBlock` completes. -/
def blockOutput (data : Record) : List Out :=
  [ Out.printf "\n📦 Block #%v\n" [Arg.val (index data "blockNumber")],
    Out.printf "⏰ Time: %v\n" [Arg.val (index data "blockTimestamp")] ]
  ++ (if (opportunities data).length > 0 then
        foundLine (opportunities data).length :: opportunityLines 0 (opportunities data)
      else [])
  ++ (if (userPnls data).length > 0 then
        processingLine (userPnls data).length :: profitLines (userPnls data)
      else [])
  ++ globalLines data
  ++ [Out.println ("─" ++ zeroBytes 80 ++ "─")]

/-- The monitor after a block on which `processBlock` completes. -/
def blockMonitor (m : ArbitrageMonitor) (data : Record) : ArbitrageMonitor :=
  { totalOpportunities := incrN (records (opportunities data)).length m.totalOpportunities
    totalUsers := incrN (records (userPnls data)).length m.totalUsers
    startTime := m.startTime }

/-- Whether `processBlock` panics on a block: some user record of it has a short address. -/
def blockPanics (data : Record) : Bool :=
  (records (userPnls data)).any shortAddress

/-- The number of composite records in the opportunity lists of the blocks of a list. -/
def opportunityCount (blocks : List Record) : Nat :=
  (blocks.map (fun data => (records (opportunities data)).length)).sum

/-- The number of composite records in the user lists of the blocks of a list. -/
def userCount (blocks : List Record) : Nat :=
  (blocks.map (fun data => (records (userPnls data)).length)).sum

/-! ## The scenarios the properties are tried on -/

/-- The first block of the scenario: two opportunities and one user with profit `"0"`. -/
def scenarioA : Record :=
  [("blockNumber", Value.int 60000001),
   ("arbitrageOpportunities", Value.list [Value.map [("marketId", Value.str "m1")],
      Value.map [("marketId", Value.str "m2")]]),
   ("userPnls", Value.list [Value.map [("userAddress", Value.str "0x1111111111"),
      ("totalArbitrageProfit", Value.str "0")]])]

/-- The second block of the scenario: no opportunity, a user with profit `"5"` and a user with
profit `"0"`. -/
def scenarioB : Record :=
  [("blockNumber", Value.int 60000002),
   ("userPnls", Value.list [Value.map [("userAddress", Value.str "0x2222222222"),
      ("totalArbitrageProfit", Value.str "5")],
     Value.map [("userAddress", Value.str "0x3333333333"),
      ("totalArbitrageProfit", Value.str "0")]])]

/-- The invariant of the loop: no summary while it streams or after a crash, one summary once
it has returned. -/
def SummaryInv (s : Loop) : Prop :=
  (s.phase = Phase.streaming → s.summaries = 0) ∧
  (s.phase = Phase.terminated → s.summaries = 1) ∧
  (s.phase = Phase.crashed → s.summaries = 0)

/-- The state of the scenario of the interruption: one block processed, two more queued, the
signal raised. -/
def scenarioInterrupted : Loop :=
  { startStreaming (NewArbitrageMonitor 0) with
    pending := [scenarioA, scenarioB]
    cancelled := true
    processed := 1 }

/-! ## Arithmetic of Go's `int` -/

theorem wrapInt_of_isInt {x : Int} (h : IsInt x) : wrapInt x = x := by
  unfold IsInt minInt maxInt at h
  unfold wrapInt
  omega

theorem isInt_wrapInt (x : Int) : IsInt (wrapInt x) := by
  unfold IsInt minInt maxInt wrapInt
  omega

theorem incrN_zero (x : Int) : incrN 0 x = x := rfl

theorem incrN_succ (k : Nat) (x : Int) : incrN (k + 1) x = incrN k (wrapInt (x + 1)) := by
  unfold incrN
  rw [Function.iterate_succ_apply]

theorem incrN_eq_wrapInt (k : Nat) : ∀ x : Int, IsInt x → incrN k x = wrapInt (x + k) := by
  induction k with
  | zero => intro x hx; simp [incrN_zero, wrapInt_of_isInt hx]
  | succ k ih =>
    intro x _
    rw [incrN_succ, ih _ (isInt_wrapInt _)]
    unfold wrapInt
    push_cast
    omega

theorem incrN_eq_add (k : Nat) (x : Int) (hlo : minInt ≤ x) (hhi : x + k ≤ maxInt) :
    incrN k x = x + k := by
  have hx : IsInt x := ⟨hlo, by omega⟩
  rw [incrN_eq_wrapInt k x hx]
  exact wrapInt_of_isInt ⟨by omega, hhi⟩

/-! ## What the loops and the parts of `processBlock` compute -/

theorem formatUserPnL_of_short {user : Record} (h : shortAddress user = true) :
    formatUserPnL user =
      Except.error (Panic.sliceBounds 8 (goBytes (sprintV (index user "userAddress"))).length) := by
  unfold shortAddress at h
  simp only [Bool.and_eq_true, decide_eq_true_eq] at h
  unfold formatUserPnL sliceTo
  simp only [h.1, if_true]
  rw [if_neg (by omega)]

theorem formatUserPnL_of_not_short {user : Record} (h : shortAddress user = false) :
    formatUserPnL user =
      Except.ok (if neString (index user "totalArbitrageProfit") "0" then [profitLine user]
        else []) := by
  unfold formatUserPnL sliceTo
  by_cases hp : neString (index user "totalArbitrageProfit") "0" = true
  · unfold shortAddress at h
    simp only [hp, Bool.true_and, decide_eq_false_iff_not, Nat.not_lt] at h
    simp only [hp, if_true]
    rw [if_pos h]
    rfl
  · simp only [hp]
    rfl

theorem opportunitiesLoop_eq (xs : List Value) : ∀ (m : ArbitrageMonitor) (out : List Out) (i : Nat),
    opportunitiesLoop m out i xs =
      ({ m with totalOpportunities := incrN (records xs).length m.totalOpportunities },
        out ++ opportunityLines i xs) := by
  induction xs with
  | nil => intro m out i; simp [opportunitiesLoop, records, opportunityLines, incrN_zero]
  | cons x rest ih =>
    intro m out i
    unfold opportunitiesLoop opportunityLines
    cases hx : asMap x with
    | none => simp [ih, records, List.filterMap_cons, hx]
    | some arbMap =>
      simp [ih, records, List.filterMap_cons, hx, incrN_succ]

theorem profitLines_cons_record (x : Value) (rest : List Value) (u : Record)
    (hx : asMap x = some u) :
    profitLines (x :: rest) =
      (if neString (index u "totalArbitrageProfit") "0" then [profitLine u] else [])
        ++ profitLines rest := by
  unfold profitLines records
  rw [List.filterMap_cons, hx]
  by_cases hp : neString (index u "totalArbitrageProfit") "0" = true
  · simp [List.filter_cons, hp]
  · simp [List.filter_cons, hp]

theorem profitLines_cons_other (x : Value) (rest : List Value) (hx : asMap x = none) :
    profitLines (x :: rest) = profitLines rest := by
  unfold profitLines records
  rw [List.filterMap_cons, hx]

theorem usersLoop_ok (xs : List Value) : ∀ (m : ArbitrageMonitor) (out : List Out),
    (records xs).any shortAddress = false →
    usersLoop m out xs =
      Except.ok ({ m with totalUsers := incrN (records xs).length m.totalUsers },
        out ++ profitLines xs) := by
  induction xs with
  | nil => intro m out _; simp [usersLoop, records, profitLines, incrN_zero]
  | cons x rest ih =>
    intro m out h
    unfold usersLoop
    cases hx : asMap x with
    | none =>
      have h' : (records rest).any shortAddress = false := by
        simpa [records, List.filterMap_cons, hx] using h
      simp only [ih m out h', profitLines_cons_other x rest hx]
      simp [records, List.filterMap_cons, hx]
    | some u =>
      have hr : records (x :: rest) = u :: records rest := by
        simp [records, List.filterMap_cons, hx]
      rw [hr, List.any_cons, Bool.or_eq_false_iff] at h
      simp only [formatUserPnL_of_not_short h.1, ih _ _ h.2, profitLines_cons_record x rest u hx]
      simp [hr, incrN_succ]

theorem usersLoop_error (xs : List Value) : ∀ (m : ArbitrageMonitor) (out : List Out),
    (records xs).any shortAddress = true →
    ∃ n, n < 8 ∧ usersLoop m out xs = Except.error (Panic.sliceBounds 8 n) := by
  induction xs with
  | nil => intro m out h; simp [records] at h
  | cons x rest ih =>
    intro m out h
    unfold usersLoop
    cases hx : asMap x with
    | none =>
      have h' : (records rest).any shortAddress = true := by
        simpa [records, List.filterMap_cons, hx] using h
      simpa using ih m out h'
    | some u =>
      have hr : records (x :: rest) = u :: records rest := by
        simp [records, List.filterMap_cons, hx]
      rw [hr, List.any_cons, Bool.or_eq_true] at h
      cases hs : shortAddress u with
      | true =>
        refine ⟨(goBytes (sprintV (index u "userAddress"))).length, ?_, ?_⟩
        · unfold shortAddress at hs
          simp only [Bool.and_eq_true, decide_eq_true_eq] at hs
          exact hs.2
        · simp only [formatUserPnL_of_short hs]
      | false =>
        rw [hs] at h
        have h' : (records rest).any shortAddress = true := by simpa using h
        simp only [formatUserPnL_of_not_short hs]
        exact ih _ _ h'

theorem processOpportunities_eq (m : ArbitrageMonitor) (out : List Out) (data : Record) :
    processOpportunities m out data =
      ({ m with totalOpportunities :=
            incrN (records (opportunities data)).length m.totalOpportunities },
        out ++ (if (opportunities data).length > 0 then
          foundLine (opportunities data).length :: opportunityLines 0 (opportunities data)
        else [])) := by
  unfold processOpportunities opportunities
  cases h : asList (index data "arbitrageOpportunities") with
  | none => simp [records, incrN_zero]
  | some xs =>
    by_cases hl : xs.length > 0
    · simp only [Option.getD_some, hl, if_true, opportunitiesLoop_eq, foundLine]
      simp
    · have hnil : xs = [] := by
        cases xs with
        | nil => rfl
        | cons a t => simp at hl
      subst hnil
      simp [records, incrN_zero]

theorem processUsers_ok (m : ArbitrageMonitor) (out : List Out) (data : Record)
    (h : blockPanics data = false) :
    processUsers m out data =
      Except.ok ({ m with totalUsers := incrN (records (userPnls data)).length m.totalUsers },
        out ++ (if (userPnls data).length > 0 then
          processingLine (userPnls data).length :: profitLines (userPnls data)
        else [])) := by
  unfold blockPanics at h
  unfold processUsers
  unfold userPnls at h ⊢
  cases hu : asList (index data "userPnls") with
  | none => simp [records, incrN_zero]
  | some xs =>
    rw [hu] at h
    by_cases hl : xs.length > 0
    · simp only [Option.getD_some] at h
      simp only [Option.getD_some, hl, if_true, usersLoop_ok xs _ _ h, processingLine]
      simp
    · have hnil : xs = [] := by
        cases xs with
        | nil => rfl
        | cons a t => simp at hl
      subst hnil
      simp [records, incrN_zero]

theorem processUsers_error (m : ArbitrageMonitor) (out : List Out) (data : Record)
    (h : blockPanics data = true) :
    ∃ n, n < 8 ∧ processUsers m out data = Except.error (Panic.sliceBounds 8 n) := by
  unfold blockPanics at h
  unfold processUsers
  unfold userPnls at h
  cases hu : asList (index data "userPnls") with
  | none => rw [hu] at h; simp [records] at h
  | some xs =>
    rw [hu] at h
    simp only [Option.getD_some] at h
    have hl : xs.length > 0 := by
      cases xs with
      | nil => simp [records] at h
      | cons a t => simp
    simp only [hl, if_true]
    exact usersLoop_error xs _ _ h

theorem processGlobal_eq (out : List Out) (data : Record) :
    processGlobal out data = out ++ globalLines data := by
  unfold processGlobal globalLines globalPnls
  cases hg : asList (index data "globalPnls") with
  | none => simp
  | some xs =>
    cases xs with
    | nil => simp
    | cons first rest =>
      cases hf : asMap first with
      | none => simp [hf]
      | some glob => simp [hf, globalLine]

theorem processBlock_ok (m : ArbitrageMonitor) (data : Record) (h : blockPanics data = false) :
    processBlock m data = Except.ok (blockMonitor m data, blockOutput data) := by
  unfold processBlock
  simp only [processOpportunities_eq, processUsers_ok _ _ data h, processGlobal_eq]
  simp [blockMonitor, blockOutput]

theorem processBlock_error (m : ArbitrageMonitor) (data : Record) (h : blockPanics data = true) :
    ∃ n, n < 8 ∧ processBlock m data = Except.error (Panic.sliceBounds 8 n) := by
  obtain ⟨n, hn, he⟩ := processUsers_error (processOpportunities m
    [ Out.printf "\n📦 Block #%v\n" [Arg.val (index data "blockNumber")],
      Out.printf "⏰ Time: %v\n" [Arg.val (index data "blockTimestamp")] ] data).1
    (processOpportunities m
    [ Out.printf "\n📦 Block #%v\n" [Arg.val (index data "blockNumber")],
      Out.printf "⏰ Time: %v\n" [Arg.val (index data "blockTimestamp")] ] data).2 data h
  refine ⟨n, hn, ?_⟩
  unfold processBlock
  simp only [he]

theorem processBlock_ok_iff (m : ArbitrageMonitor) (data : Record) :
    (∃ r, processBlock m data = Except.ok r) ↔ blockPanics data = false := by
  constructor
  · rintro ⟨r, hr⟩
    cases hp : blockPanics data with
    | false => rfl
    | true =>
      obtain ⟨n, _, he⟩ := processBlock_error m data hp
      rw [he] at hr
      cases hr
  · intro h
    exact ⟨_, processBlock_ok m data h⟩

theorem processBlock_result (m : ArbitrageMonitor) (data : Record)
    (r : ArbitrageMonitor × List Out) (h : processBlock m data = Except.ok r) :
    blockPanics data = false ∧ r = (blockMonitor m data, blockOutput data) := by
  have hp : blockPanics data = false := (processBlock_ok_iff m data).1 ⟨r, h⟩
  refine ⟨hp, ?_⟩
  rw [processBlock_ok m data hp] at h
  cases h
  rfl

/-! ## Run-time failure of `processBlock` -/

theorem neString_eq_true_iff (v : Value) (lit : String) :
    neString v lit = true ↔ v ≠ Value.str lit := by
  cases v <;> simp [neString]

theorem blockPanics_iff (data : Record) :
    blockPanics data = true ↔
      ∃ users, asList (index data "userPnls") = some users ∧
        ∃ x ∈ users, ∃ u, asMap x = some u ∧
          index u "totalArbitrageProfit" ≠ Value.str "0" ∧
          (goBytes (sprintV (index u "userAddress"))).length < 8 := by
  unfold blockPanics userPnls records
  constructor
  · intro h
    rw [List.any_eq_true] at h
    obtain ⟨u, hu, hs⟩ := h
    rw [List.mem_filterMap] at hu
    obtain ⟨x, hx, hxu⟩ := hu
    cases hl : asList (index data "userPnls") with
    | none => rw [hl] at hx; simp at hx
    | some users =>
      rw [hl] at hx
      simp only [Option.getD_some] at hx
      unfold shortAddress at hs
      simp only [Bool.and_eq_true, decide_eq_true_eq] at hs
      exact ⟨users, rfl, x, hx, u, hxu, (neString_eq_true_iff _ _).1 hs.1, hs.2⟩
  · rintro ⟨users, hl, x, hx, u, hxu, hp, hlen⟩
    rw [hl, List.any_eq_true]
    refine ⟨u, ?_, ?_⟩
    · rw [List.mem_filterMap]
      exact ⟨x, by simpa using hx, hxu⟩
    · unfold shortAddress
      simp only [Bool.and_eq_true, decide_eq_true_eq]
      exact ⟨(neString_eq_true_iff _ _).2 hp, hlen⟩

/-- C9: `processBlock` fails at run time exactly when the list under `"userPnls"` contains a
composite record whose `totalArbitrageProfit` is anything other than the string `"0"` and whose
`userAddress`, rendered with `%v`, has fewer than eight bytes; the failure is the out-of-range
slice `[:8]`; on every other block record `processBlock` completes. An absent field and the
numeric `0` are other than the string `"0"`, and an absent address renders as the five bytes
of `<nil>`. -/
theorem processBlock_fails_iff (m : ArbitrageMonitor) (data : Record) :
    ((∃ e, processBlock m data = Except.error e) ↔
      ∃ users, asList (index data "userPnls") = some users ∧
        ∃ x ∈ users, ∃ u, asMap x = some u ∧
          index u "totalArbitrageProfit" ≠ Value.str "0" ∧
          (goBytes (sprintV (index u "userAddress"))).length < 8) ∧
    (∀ e, processBlock m data = Except.error e → ∃ n, n < 8 ∧ e = Panic.sliceBounds 8 n) ∧
    ((¬ ∃ users, asList (index data "userPnls") = some users ∧
        ∃ x ∈ users, ∃ u, asMap x = some u ∧
          index u "totalArbitrageProfit" ≠ Value.str "0" ∧
          (goBytes (sprintV (index u "userAddress"))).length < 8) →
      ∃ r, processBlock m data = Except.ok r) ∧
    index [] "totalArbitrageProfit" ≠ Value.str "0" ∧
    Value.int 0 ≠ Value.str "0" ∧
    goBytes (sprintV (index [] "userAddress")) = [60, 110, 105, 108, 62] := by
  have hiff : (∃ e, processBlock m data = Except.error e) ↔ blockPanics data = true := by
    constructor
    · rintro ⟨e, he⟩
      cases hp : blockPanics data with
      | true => rfl
      | false => rw [processBlock_ok m data hp] at he; cases he
    · intro hp
      obtain ⟨n, _, hn⟩ := processBlock_error m data hp
      exact ⟨_, hn⟩
  refine ⟨hiff.trans (blockPanics_iff data), ?_, ?_, ?_, ?_, ?_⟩
  · intro e he
    obtain ⟨n, hn, hn'⟩ := processBlock_error m data (hiff.1 ⟨e, he⟩)
    rw [hn'] at he
    cases he
    exact ⟨n, hn, rfl⟩
  · intro hno
    have hp : blockPanics data = false := by
      cases hp : blockPanics data with
      | false => rfl
      | true => exact absurd ((blockPanics_iff data).1 hp) hno
    exact ⟨_, processBlock_ok m data hp⟩
  · intro h; cases h
  · intro h; cases h
  · decide

/-- C2: a user record without a `userAddress` field, and one with a five-byte address, make
`processBlock` panic with the out-of-range slice `[:8]` instead of degrading to an absent
value. -/
theorem processBlock_missing_address_panics :
    processBlock (NewArbitrageMonitor 0)
        [("blockNumber", Value.int 60000001),
         ("userPnls", Value.list [Value.map [("totalArbitrageProfit", Value.str "5")]])]
      = Except.error (Panic.sliceBounds 8 5) ∧
    processBlock (NewArbitrageMonitor 0)
        [("userPnls", Value.list [Value.map [("userAddress", Value.str "0xabc"),
          ("totalArbitrageProfit", Value.str "5")]])]
      = Except.error (Panic.sliceBounds 8 5) :=
  ⟨rfl, rfl⟩

theorem index_of_lookup_none {data : Record} {key : String} (h : data.lookup key = none) :
    index data key = Value.nil := by
  unfold index
  rw [h]

/-- C6: on a block record that has neither an `"arbitrageOpportunities"` field nor a
`"userPnls"` field, whatever its other fields, `processBlock` completes and leaves the monitor,
and so both counters, as they were; the loop that receives such a block stays in `select`
with the rest of the events pending. -/
theorem processBlock_without_lists (m : ArbitrageMonitor) (data : Record)
    (hopp : data.lookup "arbitrageOpportunities" = none)
    (husers : data.lookup "userPnls" = none) :
    (∃ out, processBlock m data = Except.ok (m, out)) ∧
    ∀ (s : Loop) (rest : List Record), s.phase = Phase.streaming → s.pending = data :: rest →
      ∃ s', step s Action.recv = some s' ∧ s'.phase = Phase.streaming ∧
        s'.monitor = s.monitor ∧ s'.pending = rest ∧ s'.summaries = s.summaries := by
  have ho : opportunities data = [] := by
    unfold opportunities; rw [index_of_lookup_none hopp]; rfl
  have hu : userPnls data = [] := by
    unfold userPnls; rw [index_of_lookup_none husers]; rfl
  have hp : blockPanics data = false := by
    unfold blockPanics; rw [hu]; rfl
  have hm : ∀ m : ArbitrageMonitor, blockMonitor m data = m := by
    intro m
    unfold blockMonitor
    rw [ho, hu]
    rfl
  have hb : ∀ m : ArbitrageMonitor, processBlock m data = Except.ok (m, blockOutput data) := by
    intro m
    rw [processBlock_ok m data hp, hm]
  refine ⟨⟨_, hb m⟩, ?_⟩
  intro s rest hph hpend
  refine ⟨{ s with monitor := s.monitor, out := s.out ++ blockOutput data, pending := rest,
                   processed := s.processed + 1 }, ?_, hph, rfl, rfl, rfl⟩
  unfold step
  simp only [hph, hpend, hb s.monitor]

/-- Witness of C6: a block with a number, a timestamp and global statistics only. -/
theorem processBlock_without_lists_witness :
    List.lookup "arbitrageOpportunities"
      [("blockNumber", Value.int 60000001), ("blockTimestamp", Value.str "1700000000"),
       ("globalPnls", Value.list [Value.map [("activeUsers", Value.int 3)]])] = none ∧
    List.lookup "userPnls"
      [("blockNumber", Value.int 60000001), ("blockTimestamp", Value.str "1700000000"),
       ("globalPnls", Value.list [Value.map [("activeUsers", Value.int 3)]])] = none ∧
    ∃ out, processBlock { totalOpportunities := 4, totalUsers := 7, startTime := 0 }
      [("blockNumber", Value.int 60000001), ("blockTimestamp", Value.str "1700000000"),
       ("globalPnls", Value.list [Value.map [("activeUsers", Value.int 3)]])]
      = Except.ok ({ totalOpportunities := 4, totalUsers := 7, startTime := 0 }, out) :=
  ⟨rfl, rfl,
   (processBlock_without_lists { totalOpportunities := 4, totalUsers := 7, startTime := 0 }
    [("blockNumber", Value.int 60000001), ("blockTimestamp", Value.str "1700000000"),
     ("globalPnls", Value.list [Value.map [("activeUsers", Value.int 3)]])] rfl rfl).1⟩

/-! ## The counters -/

theorem incrN_add (a b : Nat) (x : Int) : incrN (a + b) x = incrN b (incrN a x) := by
  unfold incrN
  rw [Nat.add_comm, Function.iterate_add_apply]

theorem processBlocks_result (blocks : List Record) :
    ∀ (m : ArbitrageMonitor) (out : List Out) (r : ArbitrageMonitor × List Out),
      processBlocks m out blocks = Except.ok r →
      r.1.totalOpportunities = incrN (opportunityCount blocks) m.totalOpportunities ∧
      r.1.totalUsers = incrN (userCount blocks) m.totalUsers ∧
      r.1.startTime = m.startTime := by
  induction blocks with
  | nil =>
    intro m out r h
    unfold processBlocks at h
    cases h
    exact ⟨rfl, rfl, rfl⟩
  | cons data rest ih =>
    intro m out r h
    unfold processBlocks at h
    cases hb : processBlock m data with
    | error e => rw [hb] at h; cases h
    | ok r1 =>
      rw [hb] at h
      obtain ⟨_, hr1⟩ := processBlock_result m data r1 hb
      obtain ⟨h1, h2, h3⟩ := ih _ _ _ h
      subst hr1
      refine ⟨?_, ?_, ?_⟩
      · rw [h1]; simp [opportunityCount, blockMonitor, incrN_add]
      · rw [h2]; simp [userCount, blockMonitor, incrN_add]
      · rw [h3]; rfl

theorem records_length_le (xs : List Value) : (records xs).length ≤ xs.length := by
  unfold records
  exact List.length_filterMap_le _ _

theorem records_length_eq_iff (xs : List Value) :
    (records xs).length = xs.length ↔ allRecords xs = true := by
  induction xs with
  | nil => simp [records, allRecords]
  | cons x rest ih =>
    have hle := records_length_le rest
    cases hx : asMap x with
    | none =>
      simp only [records, List.filterMap_cons, hx, allRecords, List.all_cons, Option.isSome_none,
        Bool.false_and, List.length_cons]
      unfold records at hle
      constructor
      · intro h; omega
      · intro h; cases h
    | some u =>
      simp only [records, List.filterMap_cons, hx, allRecords, List.all_cons, Option.isSome_some,
        Bool.true_and, List.length_cons]
      unfold records allRecords at ih
      rw [← ih]
      omega

theorem mem_blockOutput_found (data : Record) (h : (opportunities data).length > 0) :
    foundLine (opportunities data).length ∈ blockOutput data := by
  unfold blockOutput
  simp [h]

theorem mem_blockOutput_processing (data : Record) (h : (userPnls data).length > 0) :
    processingLine (userPnls data).length ∈ blockOutput data := by
  unfold blockOutput
  simp [h]

theorem sum_records_eq_sum_length (f : Record → List Value) (blocks : List Record)
    (h : ∀ data ∈ blocks, allRecords (f data) = true) :
    (blocks.map (fun data => (records (f data)).length)).sum =
      (blocks.map (fun data => (f data).length)).sum := by
  induction blocks with
  | nil => rfl
  | cons data rest ih =>
    simp only [List.map_cons, List.sum_cons]
    rw [ih (fun d hd => h d (List.mem_cons_of_mem _ hd)),
      (records_length_eq_iff (f data)).2 (h data (List.mem_cons_self _ _))]

theorem fresh_counters (now : Nat) (blocks : List Record) (m : ArbitrageMonitor)
    (out : List Out)
    (hrun : processBlocks (NewArbitrageMonitor now) [] blocks = Except.ok (m, out))
    (hopp : (opportunityCount blocks : Int) ≤ maxInt)
    (husers : (userCount blocks : Int) ≤ maxInt) :
    m.totalOpportunities = opportunityCount blocks ∧ m.totalUsers = userCount blocks := by
  obtain ⟨h1, h2, _⟩ := processBlocks_result blocks _ _ _ hrun
  have e1 : m.totalOpportunities = opportunityCount blocks := by
    rw [h1, incrN_eq_add _ _ (by unfold NewArbitrageMonitor minInt; simp)
      (by unfold NewArbitrageMonitor; simpa using hopp)]
    simp [NewArbitrageMonitor]
  have e2 : m.totalUsers = userCount blocks := by
    rw [h2, incrN_eq_add _ _ (by unfold NewArbitrageMonitor minInt; simp)
      (by unfold NewArbitrageMonitor; simpa using husers)]
    simp [NewArbitrageMonitor]
  exact ⟨e1, e2⟩

/-- C1 (counterexample): a fresh monitor fed one block whose opportunity list has two elements
and whose user list has one element ends with `totalOpportunities = 1` and `totalUsers = 0`:
the elements that are not composite records are not counted. -/
theorem counters_skip_non_records :
    ∃ m out,
      processBlocks (NewArbitrageMonitor 0) []
        [[("arbitrageOpportunities", Value.list [Value.str "x", Value.map []]),
          ("userPnls", Value.list [Value.int 7])]] = Except.ok (m, out) ∧
      (opportunities [("arbitrageOpportunities", Value.list [Value.str "x", Value.map []]),
          ("userPnls", Value.list [Value.int 7])]).length = 2 ∧
      (userPnls [("arbitrageOpportunities", Value.list [Value.str "x", Value.map []]),
          ("userPnls", Value.list [Value.int 7])]).length = 1 ∧
      m.totalOpportunities = 1 ∧ m.totalUsers = 0 :=
  ⟨_, _, rfl, rfl, rfl, rfl, rfl⟩

/-- C1 (amended): for every finite sequence of blocks fed in order to `processBlock` on a fresh
monitor, when `processBlock` completes on each block and the totals fit Go's `int`, after
the last block `totalOpportunities` is the sum over the blocks of the number of composite
records in the list under `"arbitrageOpportunities"` and `totalUsers` the sum of the number of
composite records in the list under `"userPnls"`; these are the sums of the list lengths when
every element of the lists is a composite record. -/
theorem counters_after_blocks (now : Nat) (blocks : List Record) (m : ArbitrageMonitor)
    (out : List Out)
    (hrun : processBlocks (NewArbitrageMonitor now) [] blocks = Except.ok (m, out))
    (hopp : (opportunityCount blocks : Int) ≤ maxInt)
    (husers : (userCount blocks : Int) ≤ maxInt) :
    m.totalOpportunities = opportunityCount blocks ∧
    m.totalUsers = userCount blocks ∧
    ((∀ data ∈ blocks, allRecords (opportunities data) = true) →
      m.totalOpportunities = ((blocks.map (fun data => (opportunities data).length)).sum : Nat)) ∧
    ((∀ data ∈ blocks, allRecords (userPnls data) = true) →
      m.totalUsers = ((blocks.map (fun data => (userPnls data).length)).sum : Nat)) := by
  obtain ⟨e1, e2⟩ := fresh_counters now blocks m out hrun hopp husers
  refine ⟨e1, e2, ?_, ?_⟩
  · intro hall
    rw [e1]
    unfold opportunityCount
    rw [sum_records_eq_sum_length opportunities blocks hall]
  · intro hall
    rw [e2]
    unfold userCount
    rw [sum_records_eq_sum_length userPnls blocks hall]

/-- Witness of C1: the scenario of the two blocks ends with two opportunities and three
users. -/
theorem counters_after_blocks_witness :
    processBlocks (NewArbitrageMonitor 0) [] [scenarioA, scenarioB]
      = Except.ok ({ totalOpportunities := 2, totalUsers := 3, startTime := 0 },
          blockOutput scenarioA ++ blockOutput scenarioB) ∧
    (2 : Int) = opportunityCount [scenarioA, scenarioB] ∧
    (3 : Int) = userCount [scenarioA, scenarioB] :=
  ⟨rfl,
   (counters_after_blocks 0 [scenarioA, scenarioB]
      { totalOpportunities := 2, totalUsers := 3, startTime := 0 }
      (blockOutput scenarioA ++ blockOutput scenarioB) rfl (by decide) (by decide)).1,
   (counters_after_blocks 0 [scenarioA, scenarioB]
      { totalOpportunities := 2, totalUsers := 3, startTime := 0 }
      (blockOutput scenarioA ++ blockOutput scenarioB) rfl (by decide) (by decide)).2.1⟩

/-- C7 (counterexample): from a monitor whose counters are non-negative, with
`totalOpportunities` at the largest `int`, a block with one opportunity leaves
`totalOpportunities` at the smallest `int`: smaller than before, and negative. -/
theorem counter_wraps_negative :
    ∃ m out,
      processBlock { totalOpportunities := maxInt, totalUsers := 0, startTime := 0 }
        [("arbitrageOpportunities", Value.list [Value.map []])] = Except.ok (m, out) ∧
      (0 : Int) ≤ maxInt ∧
      m.totalOpportunities = minInt ∧
      ¬ (maxInt ≤ m.totalOpportunities) ∧ ¬ (0 ≤ m.totalOpportunities) :=
  ⟨_, _, rfl, by decide, rfl, by decide, by decide⟩

/-- C7 (amended): for every monitor with non-negative counters and every block on which
`processBlock` completes, when each counter plus the number of composite records of its list
fits Go's `int`, the counters after the call are greater than or equal to the counters before
and non-negative; hence, starting from `NewArbitrageMonitor`, the counters are non-negative
after every prefix of a sequence of processed blocks and do not decrease from one prefix to
the next, as long as the totals fit Go's `int`. -/
theorem counters_monotone :
    (∀ (m m' : ArbitrageMonitor) (data : Record) (out : List Out),
      0 ≤ m.totalOpportunities → 0 ≤ m.totalUsers →
      processBlock m data = Except.ok (m', out) →
      m.totalOpportunities + (records (opportunities data)).length ≤ maxInt →
      m.totalUsers + (records (userPnls data)).length ≤ maxInt →
      m.totalOpportunities ≤ m'.totalOpportunities ∧ m.totalUsers ≤ m'.totalUsers ∧
        0 ≤ m'.totalOpportunities ∧ 0 ≤ m'.totalUsers) ∧
    (∀ (now : Nat) (pre : List Record) (data : Record) (mp mq : ArbitrageMonitor)
      (outp outq : List Out),
      processBlocks (NewArbitrageMonitor now) [] pre = Except.ok (mp, outp) →
      processBlock mp data = Except.ok (mq, outq) →
      (opportunityCount (pre ++ [data]) : Int) ≤ maxInt →
      (userCount (pre ++ [data]) : Int) ≤ maxInt →
      0 ≤ mp.totalOpportunities ∧ mp.totalOpportunities ≤ mq.totalOpportunities ∧
        0 ≤ mp.totalUsers ∧ mp.totalUsers ≤ mq.totalUsers) := by
  have step : ∀ (m m' : ArbitrageMonitor) (data : Record) (out : List Out),
      0 ≤ m.totalOpportunities → 0 ≤ m.totalUsers →
      processBlock m data = Except.ok (m', out) →
      m.totalOpportunities + (records (opportunities data)).length ≤ maxInt →
      m.totalUsers + (records (userPnls data)).length ≤ maxInt →
      m'.totalOpportunities = m.totalOpportunities + (records (opportunities data)).length ∧
        m'.totalUsers = m.totalUsers + (records (userPnls data)).length := by
    intro m m' data out h0 h0u hb hO hU
    obtain ⟨_, hr⟩ := processBlock_result m data _ hb
    cases hr
    exact ⟨incrN_eq_add _ _ (by unfold minInt; omega) hO,
      incrN_eq_add _ _ (by unfold minInt; omega) hU⟩
  constructor
  · intro m m' data out h0 h0u hb hO hU
    obtain ⟨e1, e2⟩ := step m m' data out h0 h0u hb hO hU
    omega
  · intro now pre data mp mq outp outq hpre hb hO hU
    have hOs : opportunityCount (pre ++ [data]) =
        opportunityCount pre + (records (opportunities data)).length := by
      simp [opportunityCount]
    have hUs : userCount (pre ++ [data]) = userCount pre + (records (userPnls data)).length := by
      simp [userCount]
    rw [hOs] at hO
    rw [hUs] at hU
    push_cast at hO hU
    obtain ⟨p1, p2⟩ := fresh_counters now pre mp outp hpre (by omega) (by omega)
    obtain ⟨e1, e2⟩ := step mp mq data outq (by omega) (by omega) hb (by omega) (by omega)
    omega

/-- Witness of C7: a fresh monitor and the first block of the scenario. -/
theorem counters_monotone_witness :
    (0 : Int) ≤ 0 ∧
    processBlock (NewArbitrageMonitor 0) scenarioA
      = Except.ok ({ totalOpportunities := 2, totalUsers := 1, startTime := 0 },
          blockOutput scenarioA) ∧
    ((0 : Int) ≤ 2 ∧ (0 : Int) ≤ 1 ∧ (0 : Int) ≤ 2 ∧ (0 : Int) ≤ 1) :=
  ⟨le_refl 0, rfl,
   counters_monotone.1 (NewArbitrageMonitor 0)
     { totalOpportunities := 2, totalUsers := 1, startTime := 0 } scenarioA
     (blockOutput scenarioA) (le_refl 0) (le_refl 0) rfl (by decide) (by decide)⟩

/-- C10 (counterexample): from a monitor with `totalUsers` at the largest `int`, a block with
one user record, on which `processBlock` completes, does not increase `totalUsers` by one: the
counter wraps to the smallest `int`. -/
theorem increase_wraps :
    ∃ m out,
      processBlock { totalOpportunities := 0, totalUsers := maxInt, startTime := 0 }
        [("userPnls", Value.list [Value.map [("totalArbitrageProfit", Value.str "0")]])]
          = Except.ok (m, out) ∧
      (records (userPnls
        [("userPnls", Value.list [Value.map [("totalArbitrageProfit", Value.str "0")]])])).length
          = 1 ∧
      m.totalUsers = minInt ∧ ¬ (m.totalUsers = maxInt + 1) :=
  ⟨_, _, rfl, rfl, rfl, by decide⟩

/-- C10 (amended): for every monitor whose counters are values of Go's `int` and every block
on which `processBlock` completes, `totalOpportunities` becomes the old value plus the number
of composite records in the list under `"arbitrageOpportunities"`, wrapped to 64 bits, and so
increases by exactly that number when the sum fits Go's `int`; the same holds of `totalUsers`
and the list under `"userPnls"`. That number is at most the length of the list, which the
block announces in its output when the list is not empty, with equality exactly when every
element is a composite record; and each counter is the same after any other block with the
same list under its field. -/
theorem counters_increase (m m' : ArbitrageMonitor) (data : Record) (out : List Out)
    (hO : IsInt m.totalOpportunities) (hU : IsInt m.totalUsers)
    (hb : processBlock m data = Except.ok (m', out)) :
    (m'.totalOpportunities
        = wrapInt (m.totalOpportunities + (records (opportunities data)).length) ∧
      (m.totalOpportunities + (records (opportunities data)).length ≤ maxInt →
        m'.totalOpportunities = m.totalOpportunities + (records (opportunities data)).length)) ∧
    (m'.totalUsers = wrapInt (m.totalUsers + (records (userPnls data)).length) ∧
      (m.totalUsers + (records (userPnls data)).length ≤ maxInt →
        m'.totalUsers = m.totalUsers + (records (userPnls data)).length)) ∧
    ((records (opportunities data)).length ≤ (opportunities data).length ∧
      ((records (opportunities data)).length = (opportunities data).length ↔
        allRecords (opportunities data) = true) ∧
      ((opportunities data).length > 0 → foundLine (opportunities data).length ∈ out)) ∧
    ((records (userPnls data)).length ≤ (userPnls data).length ∧
      ((records (userPnls data)).length = (userPnls data).length ↔
        allRecords (userPnls data) = true) ∧
      ((userPnls data).length > 0 → processingLine (userPnls data).length ∈ out)) ∧
    (∀ (data2 : Record) (m2 : ArbitrageMonitor) (out2 : List Out),
      processBlock m data2 = Except.ok (m2, out2) →
      (index data2 "arbitrageOpportunities" = index data "arbitrageOpportunities" →
        m2.totalOpportunities = m'.totalOpportunities) ∧
      (index data2 "userPnls" = index data "userPnls" → m2.totalUsers = m'.totalUsers)) := by
  obtain ⟨_, hr⟩ := processBlock_result m data _ hb
  cases hr
  refine ⟨⟨incrN_eq_wrapInt _ _ hO, fun h => incrN_eq_add _ _ hO.1 h⟩,
    ⟨incrN_eq_wrapInt _ _ hU, fun h => incrN_eq_add _ _ hU.1 h⟩,
    ⟨records_length_le _, records_length_eq_iff _, mem_blockOutput_found data⟩,
    ⟨records_length_le _, records_length_eq_iff _, mem_blockOutput_processing data⟩, ?_⟩
  intro data2 m2 out2 hb2
  obtain ⟨_, hr2⟩ := processBlock_result m data2 _ hb2
  cases hr2
  constructor
  · intro h
    simp only [blockMonitor, opportunities, h]
  · intro h
    simp only [blockMonitor, userPnls, h]

/-- Witness of C10: a fresh monitor and the second block of the scenario. -/
theorem counters_increase_witness :
    IsInt 0 ∧
    processBlock (NewArbitrageMonitor 0) scenarioB
      = Except.ok ({ totalOpportunities := 0, totalUsers := 2, startTime := 0 },
          blockOutput scenarioB) ∧
    (2 : Int) = wrapInt (0 + (records (userPnls scenarioB)).length) :=
  ⟨by decide, rfl,
   (counters_increase (NewArbitrageMonitor 0)
     { totalOpportunities := 0, totalUsers := 2, startTime := 0 } scenarioB
     (blockOutput scenarioB) (by decide) (by decide) rfl).2.1.1⟩

/-! ## Profit lines and global-stats lines in the output of a block -/

theorem filter_profit_opportunityLines (xs : List Value) :
    ∀ i, (opportunityLines i xs).filter isProfitLine = [] := by
  induction xs with
  | nil => intro i; rfl
  | cons x rest ih =>
    intro i
    unfold opportunityLines
    cases hx : asMap x with
    | none => exact ih _
    | some arb =>
      simp [List.filter_cons, List.filter_append, ih, isProfitLine, profitFormat, formatArbitrage]

theorem filter_global_opportunityLines (xs : List Value) :
    ∀ i, (opportunityLines i xs).filter isGlobalLine = [] := by
  induction xs with
  | nil => intro i; rfl
  | cons x rest ih =>
    intro i
    unfold opportunityLines
    cases hx : asMap x with
    | none => exact ih _
    | some arb =>
      simp [List.filter_cons, List.filter_append, ih, isGlobalLine, globalFormat, formatArbitrage]

theorem isProfitLine_profitLine (u : Record) : isProfitLine (profitLine u) = true := rfl

theorem isGlobalLine_profitLine (u : Record) : isGlobalLine (profitLine u) = false := rfl

theorem isProfitLine_globalLine (g : Record) : isProfitLine (globalLine g) = false := rfl

theorem isGlobalLine_globalLine (g : Record) : isGlobalLine (globalLine g) = true := rfl

theorem isProfitLine_foundLine (n : Nat) : isProfitLine (foundLine n) = false := rfl

theorem isGlobalLine_foundLine (n : Nat) : isGlobalLine (foundLine n) = false := rfl

theorem isProfitLine_processingLine (n : Nat) : isProfitLine (processingLine n) = false := rfl

theorem isGlobalLine_processingLine (n : Nat) : isGlobalLine (processingLine n) = false := rfl

theorem filter_profit_map_profitLine (us : List Record) :
    (us.map profitLine).filter isProfitLine = us.map profitLine := by
  induction us with
  | nil => rfl
  | cons u rest ih =>
    rw [List.map_cons, List.filter_cons, isProfitLine_profitLine, ih]
    rfl

theorem filter_global_map_profitLine (us : List Record) :
    (us.map profitLine).filter isGlobalLine = [] := by
  induction us with
  | nil => rfl
  | cons u rest ih =>
    rw [List.map_cons, List.filter_cons, isGlobalLine_profitLine, ih]
    rfl

theorem filter_profit_globalLines (data : Record) :
    (globalLines data).filter isProfitLine = [] := by
  unfold globalLines
  cases globalPnls data with
  | nil => rfl
  | cons first rest =>
    cases hf : asMap first with
    | none => simp only [hf]; rfl
    | some glob =>
      simp only [hf]
      rw [List.filter_cons, isProfitLine_globalLine]
      rfl

theorem filter_global_globalLines (data : Record) :
    (globalLines data).filter isGlobalLine = globalLines data := by
  unfold globalLines
  cases globalPnls data with
  | nil => rfl
  | cons first rest =>
    cases hf : asMap first with
    | none => simp only [hf]; rfl
    | some glob =>
      simp only [hf]
      rw [List.filter_cons, isGlobalLine_globalLine]
      rfl

theorem filter_profit_opportunityPart (xs : List Value) :
    (if xs.length > 0 then foundLine xs.length :: opportunityLines 0 xs
      else []).filter isProfitLine = [] := by
  split
  · rw [List.filter_cons, isProfitLine_foundLine, filter_profit_opportunityLines]
    rfl
  · rfl

theorem filter_global_opportunityPart (xs : List Value) :
    (if xs.length > 0 then foundLine xs.length :: opportunityLines 0 xs
      else []).filter isGlobalLine = [] := by
  split
  · rw [List.filter_cons, isGlobalLine_foundLine, filter_global_opportunityLines]
    rfl
  · rfl

theorem filter_profit_userPart (xs : List Value) :
    (if xs.length > 0 then processingLine xs.length :: profitLines xs
      else []).filter isProfitLine = profitLines xs := by
  split
  · rw [List.filter_cons, isProfitLine_processingLine]
    unfold profitLines
    rw [filter_profit_map_profitLine]
    rfl
  · rename_i h
    cases xs with
    | nil => rfl
    | cons a t => simp at h

theorem filter_global_userPart (xs : List Value) :
    (if xs.length > 0 then processingLine xs.length :: profitLines xs
      else []).filter isGlobalLine = [] := by
  split
  · rw [List.filter_cons, isGlobalLine_processingLine]
    unfold profitLines
    rw [filter_global_map_profitLine]
    rfl
  · rfl

theorem filter_profit_blockOutput (data : Record) :
    (blockOutput data).filter isProfitLine = profitLines (userPnls data) := by
  unfold blockOutput
  rw [List.filter_append, List.filter_append, List.filter_append, List.filter_append,
    filter_profit_globalLines, filter_profit_opportunityPart, filter_profit_userPart]
  simp only [List.append_nil]
  show [] ++ profitLines (userPnls data) ++ [] = profitLines (userPnls data)
  simp

theorem filter_global_blockOutput (data : Record) :
    (blockOutput data).filter isGlobalLine = globalLines data := by
  unfold blockOutput
  rw [List.filter_append, List.filter_append, List.filter_append, List.filter_append,
    filter_global_globalLines, filter_global_opportunityPart, filter_global_userPart]
  simp only [List.append_nil]
  show [] ++ globalLines data ++ [] = globalLines data
  simp

theorem length_utf8Char_pos (c : Char) : 1 ≤ (utf8Char c).length := by
  unfold utf8Char
  simp only []
  split
  · simp
  · split
    · simp
    · split <;> simp

theorem length_le_flatMap_utf8Char (cs : List Char) :
    cs.length ≤ (cs.flatMap utf8Char).length := by
  induction cs with
  | nil => simp
  | cons c rest ih =>
    have := length_utf8Char_pos c
    simp only [List.flatMap_cons, List.length_append, List.length_cons]
    omega

theorem length_le_goBytes (s : String) : s.length ≤ (goBytes s).length := by
  unfold goBytes
  exact length_le_flatMap_utf8Char s.data

/-- C5 (counterexample): a user record whose address has twelve characters and whose
`totalArbitrageProfit` is the numeric `0` produces a profit line. -/
theorem numeric_zero_prints_profit_line :
    ∃ m out,
      processBlock (NewArbitrageMonitor 0)
        [("userPnls", Value.list [Value.map [("userAddress", Value.str "0x1234567890"),
          ("totalArbitrageProfit", Value.int 0)]])] = Except.ok (m, out) ∧
      8 ≤ ("0x1234567890" : String).length ∧
      out.filter isProfitLine =
        [Out.printf profitFormat
          [Arg.bytes [48, 120, 49, 50, 51, 52, 53, 54], Arg.val (Value.int 0)]] :=
  ⟨_, _, rfl, by decide, rfl⟩

/-- C5 (amended): a user record whose rendered address has at least eight bytes (so every
string address of at least eight characters) makes `formatUserPnL` emit no line when its
`totalArbitrageProfit` is the string `"0"` and exactly one profit line, with the first eight
bytes of the address and the profit, when it is anything else, the numeric `0` and an absent
field included; and on every block on which `processBlock` completes, the profit lines of the
output are, in order, the lines of the user records whose `totalArbitrageProfit` is not the
string `"0"`, one each. -/
theorem profit_line_iff_not_string_zero (m m' : ArbitrageMonitor) (data : Record)
    (out : List Out) (hb : processBlock m data = Except.ok (m', out)) :
    out.filter isProfitLine =
      ((records (userPnls data)).filter
        (fun u => neString (index u "totalArbitrageProfit") "0")).map profitLine ∧
    (∀ u ∈ records (userPnls data),
      (index u "totalArbitrageProfit" = Value.str "0" → formatUserPnL u = Except.ok []) ∧
      (index u "totalArbitrageProfit" ≠ Value.str "0" →
        formatUserPnL u = Except.ok [profitLine u])) ∧
    (∀ u : Record, 8 ≤ (goBytes (sprintV (index u "userAddress"))).length →
      (index u "totalArbitrageProfit" = Value.str "0" → formatUserPnL u = Except.ok []) ∧
      (index u "totalArbitrageProfit" ≠ Value.str "0" →
        formatUserPnL u = Except.ok [profitLine u])) ∧
    (∀ (u : Record) (s : String), index u "userAddress" = Value.str s → 8 ≤ s.length →
      8 ≤ (goBytes (sprintV (index u "userAddress"))).length) ∧
    neString (Value.int 0) "0" = true ∧ neString Value.nil "0" = true ∧
    neString (Value.str "0") "0" = false := by
  obtain ⟨hp, hr⟩ := processBlock_result m data _ hb
  cases hr
  have hfmt : ∀ u : Record, shortAddress u = false →
      (index u "totalArbitrageProfit" = Value.str "0" → formatUserPnL u = Except.ok []) ∧
      (index u "totalArbitrageProfit" ≠ Value.str "0" →
        formatUserPnL u = Except.ok [profitLine u]) := by
    intro u hs
    rw [formatUserPnL_of_not_short hs]
    constructor
    · intro h0
      rw [h0]
      rfl
    · intro hne
      rw [if_pos ((neString_eq_true_iff _ _).2 hne)]
  refine ⟨filter_profit_blockOutput data, ?_, ?_, ?_, rfl, rfl, rfl⟩
  · intro u hu
    apply hfmt
    unfold blockPanics at hp
    cases hs : shortAddress u with
    | false => rfl
    | true =>
      have : (records (userPnls data)).any shortAddress = true :=
        List.any_eq_true.2 ⟨u, hu, hs⟩
      rw [hp] at this
      cases this
  · intro u hlen
    apply hfmt
    unfold shortAddress
    simp only [Bool.and_eq_false_imp, decide_eq_false_iff_not, Nat.not_lt]
    intro _
    exact hlen
  · intro u s hs hlen
    rw [hs]
    exact le_trans hlen (length_le_goBytes s)

/-- Witness of C5: the second block of the scenario, whose first user has profit `"5"` and
whose second user has profit `"0"`, prints one profit line. -/
theorem profit_line_iff_not_string_zero_witness :
    processBlock (NewArbitrageMonitor 0) scenarioB
      = Except.ok ({ totalOpportunities := 0, totalUsers := 2, startTime := 0 },
          blockOutput scenarioB) ∧
    (blockOutput scenarioB).filter isProfitLine =
      ((records (userPnls scenarioB)).filter
        (fun u => neString (index u "totalArbitrageProfit") "0")).map profitLine ∧
    ((records (userPnls scenarioB)).filter
        (fun u => neString (index u "totalArbitrageProfit") "0")).length = 1 :=
  ⟨rfl,
   (profit_line_iff_not_string_zero (NewArbitrageMonitor 0)
     { totalOpportunities := 0, totalUsers := 2, startTime := 0 } scenarioB
     (blockOutput scenarioB) rfl).1,
   rfl⟩

/-- C8 (counterexample): a block whose list under `"globalPnls"` has two elements, the first
of which is not a composite record, is processed without a global-stats line. -/
theorem no_global_line_without_record :
    ∃ m out,
      processBlock (NewArbitrageMonitor 0)
        [("globalPnls", Value.list [Value.str "x",
          Value.map [("activeUsers", Value.int 3), ("totalTrades", Value.int 9)]])]
        = Except.ok (m, out) ∧
      (globalPnls [("globalPnls", Value.list [Value.str "x",
          Value.map [("activeUsers", Value.int 3), ("totalTrades", Value.int 9)]])]).length = 2 ∧
      out.filter isGlobalLine = [] :=
  ⟨_, _, rfl, rfl, rfl⟩

/-- C8 (amended): on every block on which `processBlock` completes, when the list under
`"globalPnls"` is non-empty and its first element is a composite record, the output has
exactly one global-stats line, built from the `activeUsers` and `totalTrades` of that first
element; when the list is absent or empty, or its first element is not a composite record, the
output has no global-stats line; and a block that differs only in the elements after the first
yields the same output and the same monitor. -/
theorem global_line_from_first (m m' : ArbitrageMonitor) (data : Record) (out : List Out)
    (hb : processBlock m data = Except.ok (m', out)) :
    (∀ first rest glob, globalPnls data = first :: rest → asMap first = some glob →
      out.filter isGlobalLine =
        [Out.printf globalFormat
          [Arg.val (index glob "activeUsers"), Arg.val (index glob "totalTrades")]]) ∧
    (∀ first rest, globalPnls data = first :: rest → asMap first = none →
      out.filter isGlobalLine = []) ∧
    (globalPnls data = [] → out.filter isGlobalLine = []) ∧
    (∀ (data2 : Record) (first : Value) (rest rest2 : List Value),
      (∀ key, key ≠ "globalPnls" → index data2 key = index data key) →
      index data "globalPnls" = Value.list (first :: rest) →
      index data2 "globalPnls" = Value.list (first :: rest2) →
      processBlock m data2 = Except.ok (m', out)) := by
  obtain ⟨hp, hr⟩ := processBlock_result m data _ hb
  cases hr
  refine ⟨?_, ?_, ?_, ?_⟩
  · intro first rest glob hg hf
    rw [filter_global_blockOutput]
    unfold globalLines
    rw [hg]
    simp only [hf]
    rfl
  · intro first rest hg hf
    rw [filter_global_blockOutput]
    unfold globalLines
    rw [hg]
    simp only [hf]
  · intro hg
    rw [filter_global_blockOutput]
    unfold globalLines
    rw [hg]
  · intro data2 first rest rest2 hsame h1 h2
    have ho : opportunities data2 = opportunities data := by
      unfold opportunities
      rw [hsame "arbitrageOpportunities" (by decide)]
    have hu : userPnls data2 = userPnls data := by
      unfold userPnls
      rw [hsame "userPnls" (by decide)]
    have hg : globalLines data2 = globalLines data := by
      unfold globalLines globalPnls
      rw [h1, h2]
      rfl
    have hp2 : blockPanics data2 = false := by
      unfold blockPanics at hp ⊢
      rw [hu]
      exact hp
    rw [processBlock_ok m data2 hp2]
    unfold blockMonitor blockOutput
    rw [ho, hu, hg, hsame "blockNumber" (by decide), hsame "blockTimestamp" (by decide)]

/-- Witness of C8: a block with two global-stats records prints the line of the first. -/
theorem global_line_from_first_witness :
    ∃ out,
      processBlock (NewArbitrageMonitor 0)
        [("globalPnls", Value.list [
          Value.map [("activeUsers", Value.int 3), ("totalTrades", Value.int 9)],
          Value.map [("activeUsers", Value.int 4), ("totalTrades", Value.int 1)]])]
        = Except.ok (NewArbitrageMonitor 0, out) ∧
      out.filter isGlobalLine =
        [Out.printf globalFormat [Arg.val (Value.int 3), Arg.val (Value.int 9)]] :=
  ⟨_, rfl,
   (global_line_from_first (NewArbitrageMonitor 0) (NewArbitrageMonitor 0)
      [("globalPnls", Value.list [
        Value.map [("activeUsers", Value.int 3), ("totalTrades", Value.int 9)],
        Value.map [("activeUsers", Value.int 4), ("totalTrades", Value.int 1)]])]
      _ rfl).1 _ _ _ rfl rfl⟩

/-! ## The consumption loop -/

theorem step_of_not_streaming (s s' : Loop) (a : Action) (hph : s.phase ≠ Phase.streaming)
    (hstep : step s a = some s') :
    s'.phase = s.phase ∧ s'.processed = s.processed ∧ s'.summaries = s.summaries ∧
      s'.monitor = s.monitor := by
  cases a with
  | send data =>
    simp only [step] at hstep
    split at hstep
    · cases hstep
    · cases hstep; exact ⟨rfl, rfl, rfl, rfl⟩
  | close =>
    simp only [step] at hstep
    split at hstep
    · cases hstep
    · cases hstep; exact ⟨rfl, rfl, rfl, rfl⟩
  | signal =>
    simp only [step] at hstep
    split at hstep
    · cases hstep; exact ⟨rfl, rfl, rfl, rfl⟩
    · cases hstep; exact ⟨rfl, rfl, rfl, rfl⟩
  | recv =>
    simp only [step] at hstep
    cases hp : s.phase with
    | streaming => exact absurd hp hph
    | terminated => cases hstep
    | crashed => cases hstep
  | done =>
    simp only [step] at hstep
    cases hp : s.phase with
    | streaming => exact absurd hp hph
    | terminated => cases hstep
    | crashed => cases hstep

theorem run_of_terminated (acts : List Action) :
    ∀ (s s' : Loop), s.phase = Phase.terminated → run s acts = some s' →
      s'.phase = Phase.terminated ∧ s'.processed = s.processed ∧
        s'.summaries = s.summaries ∧ s'.monitor = s.monitor := by
  induction acts with
  | nil =>
    intro s s' hph hrun
    unfold run at hrun
    cases hrun
    exact ⟨hph, rfl, rfl, rfl⟩
  | cons a rest ih =>
    intro s s' hph hrun
    unfold run at hrun
    cases hs : step s a with
    | none => rw [hs] at hrun; cases hrun
    | some s1 =>
      rw [hs] at hrun
      obtain ⟨h1, h2, h3, h4⟩ := step_of_not_streaming s s1 a (by rw [hph]; decide) hs
      obtain ⟨k1, k2, k3, k4⟩ := ih s1 s' (by rw [h1, hph]) hrun
      exact ⟨k1, by rw [k2, h2], by rw [k3, h3], by rw [k4, h4]⟩

theorem step_of_streaming (s s' : Loop) (a : Action) (hph : s.phase = Phase.streaming)
    (hstep : step s a = some s') :
    (s'.phase = Phase.streaming ∧ s'.summaries = s.summaries) ∨
    (s'.phase = Phase.crashed ∧ s'.summaries = s.summaries) ∨
    (s'.phase = Phase.terminated ∧ s'.summaries = s.summaries + 1 ∧
      s'.processed = s.processed ∧ s'.monitor = s.monitor ∧
      (∃ message, s'.out = s.out ++ log message ++ printSummary s.monitor) ∧
      ((a = Action.recv ∧ s.pending = [] ∧ s.closed = true) ∨
        (a = Action.done ∧ s.cancelled = true))) := by
  cases a with
  | send data =>
    simp only [step] at hstep
    split at hstep
    · cases hstep
    · cases hstep; exact Or.inl ⟨hph, rfl⟩
  | close =>
    simp only [step] at hstep
    split at hstep
    · cases hstep
    · cases hstep; exact Or.inl ⟨hph, rfl⟩
  | signal =>
    simp only [step] at hstep
    split at hstep
    · cases hstep; exact Or.inl ⟨hph, rfl⟩
    · cases hstep; exact Or.inl ⟨hph, rfl⟩
  | recv =>
    simp only [step] at hstep
    rw [hph] at hstep
    simp only at hstep
    cases hpend : s.pending with
    | nil =>
      rw [hpend] at hstep
      simp only at hstep
      cases hc : s.closed with
      | false => rw [hc] at hstep; simp at hstep
      | true =>
        rw [hc] at hstep
        simp only [if_true] at hstep
        cases hstep
        exact Or.inr (Or.inr ⟨rfl, rfl, rfl, rfl, ⟨_, rfl⟩, Or.inl ⟨rfl, rfl, rfl⟩⟩)
    | cons data rest =>
      rw [hpend] at hstep
      simp only at hstep
      cases hb : processBlock s.monitor data with
      | error e =>
        rw [hb] at hstep
        cases hstep
        exact Or.inr (Or.inl ⟨rfl, rfl⟩)
      | ok r =>
        rw [hb] at hstep
        cases hstep
        exact Or.inl ⟨rfl, rfl⟩
  | done =>
    simp only [step] at hstep
    rw [hph] at hstep
    simp only at hstep
    cases hc : s.cancelled with
    | false => rw [hc] at hstep; simp at hstep
    | true =>
      rw [hc] at hstep
      simp only [if_true] at hstep
      cases hstep
      exact Or.inr (Or.inr ⟨rfl, rfl, rfl, rfl, ⟨_, rfl⟩, Or.inr ⟨rfl, rfl⟩⟩)

theorem step_summaryInv (s s' : Loop) (a : Action) (hinv : SummaryInv s)
    (hstep : step s a = some s') : SummaryInv s' := by
  obtain ⟨i1, i2, i3⟩ := hinv
  cases hp : s.phase with
  | streaming =>
    rcases step_of_streaming s s' a hp hstep with ⟨h1, h2⟩ | ⟨h1, h2⟩ | ⟨h1, h2, _⟩
    · refine ⟨fun _ => by rw [h2, i1 hp], fun h => ?_, fun h => ?_⟩
      · rw [h1] at h; cases h
      · rw [h1] at h; cases h
    · refine ⟨fun h => ?_, fun h => ?_, fun _ => by rw [h2, i1 hp]⟩
      · rw [h1] at h; cases h
      · rw [h1] at h; cases h
    · refine ⟨fun h => ?_, fun _ => by rw [h2, i1 hp], fun h => ?_⟩
      · rw [h1] at h; cases h
      · rw [h1] at h; cases h
  | terminated =>
    obtain ⟨h1, _, h3, _⟩ := step_of_not_streaming s s' a (by rw [hp]; decide) hstep
    refine ⟨fun h => ?_, fun _ => by rw [h3, i2 hp], fun h => ?_⟩
    · rw [h1, hp] at h; cases h
    · rw [h1, hp] at h; cases h
  | crashed =>
    obtain ⟨h1, _, h3, _⟩ := step_of_not_streaming s s' a (by rw [hp]; decide) hstep
    refine ⟨fun h => ?_, fun h => ?_, fun _ => by rw [h3, i3 hp]⟩
    · rw [h1, hp] at h; cases h
    · rw [h1, hp] at h; cases h

theorem run_summaryInv (acts : List Action) :
    ∀ (s s' : Loop), SummaryInv s → run s acts = some s' → SummaryInv s' := by
  induction acts with
  | nil =>
    intro s s' hinv hrun
    unfold run at hrun
    cases hrun
    exact hinv
  | cons a rest ih =>
    intro s s' hinv hrun
    unfold run at hrun
    cases hs : step s a with
    | none => rw [hs] at hrun; cases hrun
    | some s1 =>
      rw [hs] at hrun
      exact ih s1 s' (step_summaryInv s s1 a hinv hs) hrun

theorem startStreaming_summaryInv (m : ArbitrageMonitor) : SummaryInv (startStreaming m) :=
  ⟨fun _ => rfl, fun h => by simp [startStreaming] at h, fun _ => rfl⟩

/-- C4: in every run of the consumption loop, `printSummary` has been called zero times while
the loop is still streaming and exactly once when the loop has returned; the loop returns
only by the receive on the closed, drained stream or by the cancellation case, and that step
is the one that prints the summary of the monitor; after it no block is processed, the
monitor is not changed and no other summary is printed, whatever happens next. -/
theorem summary_exactly_once (m : ArbitrageMonitor) (acts : List Action) (s : Loop)
    (hrun : run (startStreaming m) acts = some s) :
    (s.phase = Phase.streaming → s.summaries = 0) ∧
    (s.phase = Phase.terminated → s.summaries = 1) ∧
    (∀ (a : Action) (s' : Loop), s.phase = Phase.streaming → step s a = some s' →
      s'.phase = Phase.terminated →
      s'.summaries = 1 ∧ s'.processed = s.processed ∧
      (∃ message, s'.out = s.out ++ log message ++ printSummary s.monitor) ∧
      ((a = Action.recv ∧ s.pending = [] ∧ s.closed = true) ∨
        (a = Action.done ∧ s.cancelled = true))) ∧
    (s.phase = Phase.terminated → ∀ (more : List Action) (s' : Loop), run s more = some s' →
      s'.phase = Phase.terminated ∧ s'.summaries = 1 ∧ s'.processed = s.processed ∧
        s'.monitor = s.monitor) := by
  have hinv : SummaryInv s := run_summaryInv acts _ s (startStreaming_summaryInv m) hrun
  refine ⟨hinv.1, hinv.2.1, ?_, ?_⟩
  · intro a s' hph hstep hterm
    rcases step_of_streaming s s' a hph hstep with ⟨h1, _⟩ | ⟨h1, _⟩ | ⟨_, h2, h3, _, h5, h6⟩
    · rw [h1] at hterm; cases hterm
    · rw [h1] at hterm; cases hterm
    · exact ⟨by rw [h2, hinv.1 hph], h3, h5, h6⟩
  · intro hph more s' hmore
    obtain ⟨k1, k2, k3, k4⟩ := run_of_terminated more s s' hph hmore
    exact ⟨k1, by rw [k3, hinv.2.1 hph], k2, k4⟩

/-- Witness of C4: the two blocks of the scenario, then the end of the stream. -/
theorem summary_exactly_once_witness :
    ∃ s,
      run (startStreaming (NewArbitrageMonitor 0))
        [Action.send scenarioA, Action.recv, Action.send scenarioB, Action.recv,
         Action.close, Action.recv] = some s ∧
      s.phase = Phase.terminated ∧ s.summaries = 1 ∧ s.processed = 2 ∧
      s.monitor.totalOpportunities = 2 ∧ s.monitor.totalUsers = 3 :=
  ⟨_, rfl, rfl,
   (summary_exactly_once (NewArbitrageMonitor 0)
      [Action.send scenarioA, Action.recv, Action.send scenarioB, Action.recv,
       Action.close, Action.recv] _ rfl).2.1 rfl,
   rfl, rfl, rfl⟩

/-- C3 (counterexample): two block events are available when the cancellation signal is
raised, and the loop still processes both of them before it takes the cancellation case. -/
theorem blocks_processed_after_cancellation :
    ∃ s s',
      run (startStreaming (NewArbitrageMonitor 0))
        [Action.send scenarioA, Action.send scenarioB, Action.signal] = some s ∧
      s.cancelled = true ∧ s.phase = Phase.streaming ∧ s.pending.length = 2 ∧
      s.processed = 0 ∧
      run s [Action.recv, Action.recv, Action.done] = some s' ∧
      s'.phase = Phase.terminated ∧ s'.processed = 2 :=
  ⟨_, _, rfl, rfl, rfl, rfl, rfl, rfl, rfl, rfl⟩

/-- C3 (amended): once the cancellation signal has been raised, the loop can take the
cancellation case whatever block events are pending, and from the moment it takes that case
the number of blocks processed afterwards is zero, in every continuation of the run; until
that moment `select` may still take the receive case on an available block event. -/
theorem no_block_after_cancellation_case (s : Loop) (hph : s.phase = Phase.streaming)
    (hc : s.cancelled = true) :
    ∃ s1, step s Action.done = some s1 ∧ s1.phase = Phase.terminated ∧
      s1.processed = s.processed ∧ s1.pending = s.pending ∧
      ∀ (more : List Action) (s2 : Loop), run s1 more = some s2 →
        s2.processed = s.processed ∧ s2.phase = Phase.terminated := by
  refine ⟨finish s "👋 Shutting down gracefully...", ?_, rfl, rfl, rfl, ?_⟩
  · unfold step
    rw [hph]
    simp only [hc, if_true]
  · intro more s2 hmore
    obtain ⟨k1, k2, _, _⟩ := run_of_terminated more _ s2 rfl hmore
    exact ⟨k2, k1⟩

/-- Witness of C3: with two events queued, the cancellation case ends the run with no further
block processed. -/
theorem no_block_after_cancellation_case_witness :
    scenarioInterrupted.phase = Phase.streaming ∧ scenarioInterrupted.cancelled = true ∧
    scenarioInterrupted.pending.length = 2 ∧
    ∃ s1, step scenarioInterrupted Action.done = some s1 ∧ s1.phase = Phase.terminated ∧
      s1.processed = scenarioInterrupted.processed ∧ s1.pending = scenarioInterrupted.pending ∧
      ∀ (more : List Action) (s2 : Loop), run s1 more = some s2 →
        s2.processed = scenarioInterrupted.processed ∧ s2.phase = Phase.terminated :=
  ⟨rfl, rfl, rfl, no_block_after_cancellation_case scenarioInterrupted rfl rfl⟩

end StreamArbitrage
